import Mathlib

/-! Shallow embedding of the event scanner in src/event_filter.py.

Python integers are modeled as Int; Python floor division (the double
slash operator) is Int.fdiv.  Web3 RPC calls are modeled as oracle
functions passed in as parameters: a log fetch is a function from a block
range to Option (List Evt), where none models a raised exception, and a
block header lookup is a function from a height to Option Int (the block
timestamp), where none models the BlockNotFound exception.  Python
dictionaries (insertion ordered, overwriting on repeated keys) are
modeled as association lists with the dictInsert operation.  While loops
and unbounded recursion are modeled with an explicit fuel parameter: a
result of none for a fuel indexed function means the computation has not
produced a value within that many steps. -/

/-- A decoded web3 event as consumed by process_event and scan_chunk.
logIndex is Option Int because web3 reports null for a pending log. -/
structure Evt where
  logIndex : Option Int
  transactionIndex : Int
  transactionHash : String
  blockNumber : Int
  addr_from : String
  addr_to : String
  value : Int
deriving DecidableEq

/-- The internal transfer record built by JSONifiedState.process_event.
The timestamp field models the value carried by block_when.isoformat(). -/
structure TransferRec where
  addr_from : String
  addr_to : String
  value : Int
  timestamp : Int
deriving DecidableEq

/-- Insertion ordered dictionary update, matching Python dict assignment:
an existing key is overwritten in place, a new key is appended. -/
def dictInsert {K V : Type} [DecidableEq K] (k : K) (v : V) : List (K × V) → List (K × V)
  | [] => [(k, v)]
  | (k1, v1) :: rest => if k = k1 then (k, v) :: rest else (k1, v1) :: dictInsert k v rest

/-- Dictionary lookup. -/
def dictGet {K V : Type} [DecidableEq K] (k : K) : List (K × V) → Option V
  | [] => none
  | (k1, v1) :: rest => if k = k1 then some v1 else dictGet k rest

/-- Events of one transaction, keyed by log index. -/
abbrev TxDict := List (Option Int × TransferRec)

/-- Transactions of one block, keyed by transaction hash. -/
abbrev BlockDict := List (String × TxDict)

/-- The nested in-memory state of JSONifiedState: transfers keyed by block
number, then by transaction hash, then by log index. -/
abbrev Blocks := List (Int × BlockDict)

/-- The pointer string returned by process_event, kept as the triple of
block number, transaction hash and log index that the source formats. -/
abbrev Ptr := Int × String × Option Int

/-- JSONifiedState.process_event.  The block_when argument is the cached
block timestamp; when it is none (the block was not found) the Python
code crashes on block_when.isoformat() with an AttributeError, modeled as
a none result.  On success it writes the transfer record into the state
under blockNumber, then transactionHash, then logIndex, and returns the
new state together with the pointer. -/
def process_event (block_when : Option Int) (event : Evt) (st : Blocks) : Option (Blocks × Ptr) :=
  match block_when with
  | none => none
  | some ts =>
    let transfer : TransferRec :=
      { addr_from := event.addr_from, addr_to := event.addr_to,
        value := event.value, timestamp := ts }
    let blockDict : BlockDict := (dictGet event.blockNumber st).getD []
    let txDict : TxDict := (dictGet event.transactionHash blockDict).getD []
    let txDict2 := dictInsert event.logIndex transfer txDict
    let blockDict2 := dictInsert event.transactionHash txDict2 blockDict
    some (dictInsert event.blockNumber blockDict2 st,
          (event.blockNumber, event.transactionHash, event.logIndex))

/-- EventScanner.get_block_timestamp.  The header oracle models
web3.eth.get_block, with none for a BlockNotFound exception; the except
branch turns that exception into a None return value instead of
propagating it. -/
def get_block_timestamp (header : Int → Option Int) (block_num : Int) : Option Int :=
  match header block_num with
  | none => none
  | some ts => some ts

/-- The retry loop _retry_web3_call.  The fetch oracle returns none for a
raised exception.  The Nat argument is the remaining number of attempts
(initially the retries parameter).  On a successful attempt the pair of
the current end_block and the fetched logs is returned; a failed attempt
with further attempts remaining halves the width end_block minus
start_block with Python floor division, re-anchored at start_block, and
retries; the failure of the last attempt re-raises, modeled as none.
With retries zero the Python function falls through the loop and returns
None, also modeled as none. -/
def _retry_web3_call (func : Int → Int → Option (List Evt)) (start_block end_block : Int) : Nat → Option (Int × List Evt)
  | 0 => none
  | retries + 1 =>
    match func start_block end_block with
    | some res => some (end_block, res)
    | none =>
      if retries = 0 then none
      else _retry_web3_call func start_block (start_block + (end_block - start_block).fdiv 2) retries

/-- The event loop inside EventScanner.scan_chunk: for each event, assert
that logIndex is not null, look up the block timestamp (the per chunk
timestamp cache is transparent over a pure header oracle), and hand the
event to process_event, accumulating the returned pointers.  A failed
assertion or a crash inside process_event aborts the chunk, modeled as
none. -/
def processLogs (header : Int → Option Int) : Blocks → List Ptr → List Evt → Option (Blocks × List Ptr)
  | st, acc, [] => some (st, acc)
  | st, acc, event :: rest =>
    if event.logIndex.isSome then
      match process_event (get_block_timestamp header event.blockNumber) event st with
      | none => none
      | some r => processLogs header r.1 (acc ++ [r.2]) rest
    else none

/-- EventScanner.scan_chunk for the single matching event type (the
scanner is instantiated with the one Transfer event and an event_type
filter that matches it).  Returns the possibly shrunk end block, the
timestamp of that end block (none when its header is missing), the
updated state and the processed pointers; a none result models an
exception escaping the chunk. -/
def scan_chunk (fetch : Int → Int → Option (List Evt)) (retries : Nat) (header : Int → Option Int) (st : Blocks) (start_block end_block : Int) : Option (Int × Option Int × Blocks × List Ptr) :=
  match _retry_web3_call fetch start_block end_block retries with
  | none => none
  | some (end2, events) =>
    match processLogs header st [] events with
    | none => none
    | some (st2, ptrs) => some (end2, get_block_timestamp header end2, st2, ptrs)

/-- EventScanner.min_scan_chunk_size, fixed to 10 in the constructor. -/
def min_scan_chunk_size : Int := 10

/-- MAX_CHUNK_SIZE, the module level constant. -/
def MAX_CHUNK_SIZE : Int := 1000

/-- EventScanner.estimate_next_chunk_size.  chunk_size_increase is the
float 2.0 in the source; the multiplication of an integer chunk size by
2.0 and the final int() conversion are exact whenever twice the size
stays below 2 to the 53, and larger products land exactly on
max_scan_chunk_size through the clamp, so the computation is modeled on
Int. -/
def estimate_next_chunk_size (max_scan_chunk_size current_chuck_size : Int) (event_found_count : Nat) : Int :=
  let c1 := if 0 < event_found_count then min_scan_chunk_size else current_chuck_size * 2
  min max_scan_chunk_size (max min_scan_chunk_size c1)

/-- The block ranges queried by one asincScan task inside
EventScanner.scan.  The oracle abstracts scan_chunk: it yields the actual
end block and the number of new entries of each chunk.  Mirrors the while
loop: while current_block is at most end_b, query the inclusive range
from current_block to current_block plus chunk_size (the source computes
estimated_end_block with no clamping to end_b), then resize through
estimate_next_chunk_size followed by the cap at MAX_CHUNK_SIZE, and
continue from the returned actual end plus one.  Fuel bounds the number
of iterations. -/
def asincScanTrace (oracle : Int → Int → Int × Nat) (max_scan_chunk_size end_b : Int) : Int → Int → Nat → List (Int × Int)
  | _, _, 0 => []
  | current_block, chunk_size, fuel + 1 =>
    if current_block ≤ end_b then
      let estimated_end_block := current_block + chunk_size
      let res := oracle current_block estimated_end_block
      let cs1 := estimate_next_chunk_size max_scan_chunk_size chunk_size res.2
      let cs2 := if cs1 ≤ MAX_CHUNK_SIZE then cs1 else MAX_CHUNK_SIZE
      (current_block, estimated_end_block) :: asincScanTrace oracle max_scan_chunk_size end_b (res.1 + 1) cs2 fuel
    else []

/-- The segment list produced by taskCreator inside EventScanner.scan:
the while loop emits segments of width MAX_CHUNK_SIZE while cursor_b plus
MAX_CHUNK_SIZE is below end_b, then one final task from cursor_b to the
scan argument end_block, which equals end_b. -/
def taskSegments (start_b end_b : Int) : List (Int × Int) :=
  if h : start_b + MAX_CHUNK_SIZE < end_b then
    (start_b, start_b + MAX_CHUNK_SIZE - 1) :: taskSegments (start_b + MAX_CHUNK_SIZE) end_b
  else
    [(start_b, end_b)]
termination_by (end_b - start_b).toNat
decreasing_by
  simp only [MAX_CHUNK_SIZE] at h ⊢
  omega

/-- A segment list partitions the inclusive range from s to e: segments
are contiguous, the first starts at s, the last ends at e, and every
segment except the last spans exactly MAX_CHUNK_SIZE blocks. -/
def isPartition (s e : Int) : List (Int × Int) → Prop
  | [] => False
  | [(a, b)] => a = s ∧ b = e
  | (a, b) :: seg :: rest => a = s ∧ b - a + 1 = MAX_CHUNK_SIZE ∧ isPartition (b + 1) e (seg :: rest)

/-- get_contract_creation_block, with the web3 get_code oracle abstracted
into the Bool predicate hasCode (true when the contract bytecode at that
height is non empty) and the unbounded recursion bounded by fuel: a none
result means the recursion has not returned within that many steps. -/
def get_contract_creation_block (hasCode : Int → Bool) (blocknumber_from blocknumber_to : Int) : Nat → Option Int
  | 0 => none
  | fuel + 1 =>
    let middle_block := (blocknumber_from + blocknumber_to).fdiv 2
    let n_minus_one_is_contract := hasCode (middle_block - 1)
    let n_is_contract := hasCode middle_block
    if n_is_contract && !n_minus_one_is_contract then some middle_block
    else if n_is_contract && n_minus_one_is_contract then
      get_contract_creation_block hasCode blocknumber_from middle_block fuel
    else
      get_contract_creation_block hasCode middle_block blocknumber_to fuel

/-- The choice of the effective scan start in filter.run: the restored
last_scanned_block when it is nonzero, else the creation block found by
get_contract_creation_block.  The run then calls
scanner.scan(cutoff_block, cutoff_block + MAX_CHUNK_SIZE * 5 + 1). -/
def cutoff_block (last_scanned_block creation_block : Int) : Int :=
  if last_scanned_block = 0 then creation_block else last_scanned_block

/-- Oracle of the oversized response scenario: the node accepts a log
query exactly when its end block is at most 1125. -/
def oracle1125 : Int → Int → Option (List Evt) :=
  fun _ e => if e ≤ 1125 then some [] else none

/-- Oracle that fails every query. -/
def oracleNever : Int → Int → Option (List Evt) :=
  fun _ _ => none

/-- Oracle that accepts exactly the ranges spanning at most 100 blocks. -/
def oracleW100 : Int → Int → Option (List Evt) :=
  fun a b => if b - a + 1 ≤ 100 then some [] else none

/-- scan_chunk oracle whose actual end equals the estimated end and that
finds no events. -/
def oracleEqualEnd : Int → Int → Int × Nat :=
  fun _ e => (e, 0)

/-- Has-code predicate of a contract created at height 6. -/
def hasCodeAt6 : Int → Bool :=
  fun h => decide (6 ≤ h)

/-- Has-code predicate with code present at every height. -/
def allCode : Int → Bool :=
  fun _ => true

/-- Header oracle with a missing block at height 50. -/
def headerMiss : Int → Option Int :=
  fun h => if h = 50 then none else some (1000 + h)

/-- A single decoded event located in block 50. -/
def evt50 : Evt :=
  { logIndex := some 3, transactionIndex := 1, transactionHash := "0xabc",
    blockNumber := 50, addr_from := "0xA", addr_to := "0xB", value := 7 }

/-- Fetch oracle that returns the single event evt50 on every query. -/
def fetchOneEvt : Int → Int → Option (List Evt) :=
  fun _ _ => some [evt50]

/-- First of two events sharing the key (block 9, hash 0xaa, index 3). -/
def evtA : Evt :=
  { logIndex := some 3, transactionIndex := 1, transactionHash := "0xaa",
    blockNumber := 9, addr_from := "0xA", addr_to := "0xB", value := 7 }

/-- Second event with the same key as evtA but a different payload. -/
def evtB : Evt :=
  { logIndex := some 3, transactionIndex := 2, transactionHash := "0xaa",
    blockNumber := 9, addr_from := "0xC", addr_to := "0xD", value := 8 }

theorem dictGet_dictInsert {K V : Type} [DecidableEq K] (k : K) (v : V) (d : List (K × V)) :
    dictGet k (dictInsert k v d) = some v := by
  induction d with
  | nil => simp [dictInsert, dictGet]
  | cons kv rest ih =>
    obtain ⟨k1, v1⟩ := kv
    by_cases h : k = k1
    · simp [dictInsert, dictGet, h]
    · simp [dictInsert, dictGet, h, ih]

theorem dictInsert_dictInsert {K V : Type} [DecidableEq K] (k : K) (v1 v2 : V) (d : List (K × V)) :
    dictInsert k v2 (dictInsert k v1 d) = dictInsert k v2 d := by
  induction d with
  | nil => simp [dictInsert]
  | cons kv rest ih =>
    obtain ⟨k1, w⟩ := kv
    by_cases h : k = k1
    · simp [dictInsert, h]
    · simp [dictInsert, h, ih]

/-- C1: _retry_web3_call on an inclusive range: a successful attempt
returns the pair of the current end block and the logs; a failed attempt
with more attempts remaining replaces the end block by start plus half
the width (Python floor division, re-anchored at the original start),
and retries; the failure of the last attempt re-raises, and with the
default budget of 4 attempts a request for blocks 1000 to 2000 against a
node accepting only end blocks at most 1125 is retried as 1000 to 1500,
then 1000 to 1250, then 1000 to 1125, returning the actual end 1125. -/
theorem retry_shrink_spec :
    (∀ (f : Int → Int → Option (List Evt)) (s e : Int) (r : Nat) (logs : List Evt),
      f s e = some logs → _retry_web3_call f s e (r + 1) = some (e, logs)) ∧
    (∀ (f : Int → Int → Option (List Evt)) (s e : Int) (r : Nat),
      f s e = none →
      _retry_web3_call f s e (r + 2) =
        _retry_web3_call f s (s + (e - s).fdiv 2) (r + 1)) ∧
    (∀ (f : Int → Int → Option (List Evt)) (s e : Int),
      f s e = none → _retry_web3_call f s e 1 = none) ∧
    _retry_web3_call oracle1125 1000 2000 4 = some (1125, []) := by
  refine ⟨?_, ?_, ?_, by decide⟩
  · intro f s e r logs h
    simp [_retry_web3_call, h]
  · intro f s e r h
    simp [_retry_web3_call, h]
  · intro f s e h
    simp [_retry_web3_call, h]

/-- Witness for retry_shrink_spec at a concrete failing query. -/
theorem retry_shrink_spec_witness :
    oracleNever 1000 2000 = none ∧
    _retry_web3_call oracleNever 1000 2000 2 =
      _retry_web3_call oracleNever 1000 (1000 + ((2000 : Int) - 1000).fdiv 2) 1 :=
  ⟨rfl, retry_shrink_spec.2.1 oracleNever 1000 2000 0 rfl⟩

/-- C3: estimate_next_chunk_size is a pure function of the current size
and the hit count: with min_scan_chunk_size at most max_scan_chunk_size,
a positive hit count collapses the size to min_scan_chunk_size, a zero
hit count doubles the current size, the result is clamped into the
interval from min_scan_chunk_size to max_scan_chunk_size, and with max
1000 and initial size 20 successive empty chunks yield 40, 80, 160, 320,
640, 1000 (clamped), after which a chunk with 3 events yields 10. -/
theorem chunk_sizer_spec (mx cur : Int) (cnt : Nat) (h : min_scan_chunk_size ≤ mx) :
    (min_scan_chunk_size ≤ estimate_next_chunk_size mx cur cnt ∧
      estimate_next_chunk_size mx cur cnt ≤ mx) ∧
    (0 < cnt → estimate_next_chunk_size mx cur cnt = min_scan_chunk_size) ∧
    (cnt = 0 → estimate_next_chunk_size mx cur cnt =
      min mx (max min_scan_chunk_size (cur * 2))) ∧
    estimate_next_chunk_size 1000 20 0 = 40 ∧
    estimate_next_chunk_size 1000 40 0 = 80 ∧
    estimate_next_chunk_size 1000 80 0 = 160 ∧
    estimate_next_chunk_size 1000 160 0 = 320 ∧
    estimate_next_chunk_size 1000 320 0 = 640 ∧
    estimate_next_chunk_size 1000 640 0 = 1000 ∧
    estimate_next_chunk_size 1000 1000 3 = 10 := by
  refine ⟨⟨?_, ?_⟩, ?_, ?_, by decide, by decide, by decide, by decide,
    by decide, by decide, by decide⟩
  · simp only [estimate_next_chunk_size, min_scan_chunk_size] at h ⊢
    split <;> omega
  · simp only [estimate_next_chunk_size, min_scan_chunk_size] at h ⊢
    split <;> omega
  · intro hc
    simp only [estimate_next_chunk_size, min_scan_chunk_size] at h ⊢
    rw [if_pos hc]
    omega
  · intro hc
    subst hc
    simp only [estimate_next_chunk_size, min_scan_chunk_size] at h ⊢
    rw [if_neg (by omega)]

/-- Witness for chunk_sizer_spec at the configured bounds. -/
theorem chunk_sizer_spec_witness :
    min_scan_chunk_size ≤ (1000 : Int) ∧
    min_scan_chunk_size ≤ estimate_next_chunk_size 1000 20 0 ∧
    estimate_next_chunk_size 1000 20 0 ≤ 1000 :=
  ⟨by decide, (chunk_sizer_spec 1000 20 0 (by decide)).1.1,
    (chunk_sizer_spec 1000 20 0 (by decide)).1.2⟩

/-- C6 (code bug): filter.run starts the cycle at the stored cursor
itself, not at max(1, cursor minus 10): with cursor 1000 and creation
block 500 the effective start is 1000, not 990; only a cursor equal to
zero falls back to the creation block.  The helper
get_suggested_scan_start_block whose docstring promises the ten block
rescan is never called and reads the attribute
NUM_BLOCKS_RESCAN_FOR_FORKS, which is never assigned anywhere. -/
theorem scan_start_no_reorg_rewind :
    cutoff_block 1000 500 = 1000 ∧
    cutoff_block 0 500 = 500 ∧
    cutoff_block 1000 500 ≠ max 1 (1000 - 10) := by
  decide

/-- C4 (code bug): the creation locator does not terminate for every
monotone has-code predicate with a transition inside the interval: with
code present exactly from height 6 onward and the interval from 5 to 6,
the middle block is 5, code is absent there, and the else branch
recurses on the identical interval, so the search never returns a value
within any number of steps, instead of returning the transition 6. -/
theorem creation_locator_diverges (fuel : Nat) :
    get_contract_creation_block hasCodeAt6 5 6 fuel = none := by
  induction fuel with
  | zero => rfl
  | succ n ih =>
    exact Eq.trans
      (show get_contract_creation_block hasCodeAt6 5 6 (n + 1) =
            get_contract_creation_block hasCodeAt6 5 6 n from rfl) ih

/-- C10: processing an event is idempotent on its key: for every state
and any two events with the same block number, transaction hash and log
index, processing the first and then the second produces exactly the
state and pointer produced by processing only the second, so re-scanned
duplicates from a rewind overwrite instead of duplicating records. -/
theorem process_event_idempotent (t1 t2 : Int) (e1 e2 : Evt) (st : Blocks)
    (hb : e1.blockNumber = e2.blockNumber)
    (ht : e1.transactionHash = e2.transactionHash)
    (hl : e1.logIndex = e2.logIndex) :
    (process_event (some t1) e1 st).bind (fun r => process_event (some t2) e2 r.1) =
      process_event (some t2) e2 st := by
  obtain ⟨l1, ti1, tx1, b1, f1, a1, v1⟩ := e1
  obtain ⟨l2, ti2, tx2, b2, f2, a2, v2⟩ := e2
  dsimp only at hb ht hl
  subst hb ht hl
  simp [process_event, dictGet_dictInsert, dictInsert_dictInsert]

/-- Witness for process_event_idempotent on two concrete events sharing
the key. -/
theorem process_event_idempotent_witness :
    evtA.blockNumber = evtB.blockNumber ∧
    evtA.transactionHash = evtB.transactionHash ∧
    evtA.logIndex = evtB.logIndex ∧
    (process_event (some 5) evtA []).bind (fun r => process_event (some 9) evtB r.1) =
      process_event (some 9) evtB [] :=
  ⟨rfl, rfl, rfl, process_event_idempotent 5 9 evtA evtB [] rfl rfl rfl⟩

/-- C5 (amended): no ContractNotFound error exists in the code; on any
interval whose has-code predicate has no transition at or above the
lower bound (in particular when code is present at the lower bound or at
every height, or absent everywhere), the locator never returns a height:
after any number of recursion steps it is still running. -/
theorem creation_locator_no_transition_never_returns
    (hasCode : Int → Bool) (fuel : Nat) :
    ∀ lo hi : Int, lo ≤ hi →
    (∀ h : Int, lo ≤ h → ¬(hasCode h = true ∧ hasCode (h - 1) = false)) →
    get_contract_creation_block hasCode lo hi fuel = none := by
  induction fuel with
  | zero => intro lo hi _ _; rfl
  | succ n ih =>
    intro lo hi hle hno
    have hfm := Int.fdiv_add_fmod (lo + hi) 2
    have hr0 : 0 ≤ (lo + hi).fmod 2 := Int.fmod_nonneg' (lo + hi) (by norm_num)
    have hr1 : (lo + hi).fmod 2 < 2 := Int.fmod_lt_of_pos (lo + hi) (by norm_num)
    have hmid1 : lo ≤ (lo + hi).fdiv 2 := by omega
    have hmid2 : (lo + hi).fdiv 2 ≤ hi := by omega
    simp only [get_contract_creation_block]
    split
    · rename_i hcond
      rw [Bool.and_eq_true, Bool.not_eq_true'] at hcond
      exact absurd hcond (hno _ hmid1)
    · split
      · exact ih lo ((lo + hi).fdiv 2) hmid1 hno
      · exact ih ((lo + hi).fdiv 2) hi hmid2 (fun h hh => hno h (hmid1.trans hh))

/-- C5 counterexample: with code present at every height (violating the
precondition that code at the lower bound is empty) the locator on the
interval 1 to 1000 has produced nothing after 30 recursion steps, three
times the binary search depth of the interval, and by
creation_locator_no_transition_never_returns it never will; it does not
fail with ContractNotFound, an error that appears nowhere in the code. -/
theorem creation_locator_no_contract_not_found :
    get_contract_creation_block allCode 1 1000 30 = none := by
  decide

/-- Witness for creation_locator_no_transition_never_returns on the
all-code predicate. -/
theorem creation_locator_no_transition_witness :
    (1 : Int) ≤ 1000 ∧ get_contract_creation_block allCode 1 1000 5 = none :=
  ⟨by decide, creation_locator_no_transition_never_returns allCode 5 1 1000 (by decide)
    (fun h _ hc => by simp [allCode] at hc)⟩

theorem asincScanTrace_lower (oracle : Int → Int → Int × Nat) (mx end_b : Int) :
    ∀ (fuel : Nat) (cur cs : Int) (q : Int × Int),
      q ∈ asincScanTrace oracle mx end_b cur cs fuel → q.1 ≤ end_b := by
  intro fuel
  induction fuel with
  | zero => intro cur cs q hq; simp [asincScanTrace] at hq
  | succ n ih =>
    intro cur cs q hq
    by_cases hc : cur ≤ end_b
    · simp only [asincScanTrace] at hq
      rw [if_pos hc] at hq
      rcases List.mem_cons.mp hq with hq1 | hq1
      · subst hq1; exact hc
      · exact ih _ _ q hq1
    · simp only [asincScanTrace] at hq
      rw [if_neg hc] at hq
      simp at hq

/-- C7 (amended): inside asincScan each tentative chunk upper bound is
current_block + chunk_size with no clamping to the segment end: the
query issued by an iteration entered with current_block at most end_b is
exactly the range from current_block to current_block + chunk_size,
which can reach past end_b; the loop guarantees only that every issued
query starts at or below the segment end, and no bound relative to the
chain tip is enforced (filter.run passes cutoff + MAX_CHUNK_SIZE * 5 + 1
as the scan end regardless of the latest block). -/
theorem asincScan_query_bounds (oracle : Int → Int → Int × Nat) (mx end_b cur cs : Int) (fuel : Nat) :
    (cur ≤ end_b →
      (asincScanTrace oracle mx end_b cur cs (fuel + 1)).head? = some (cur, cur + cs)) ∧
    (∀ q ∈ asincScanTrace oracle mx end_b cur cs fuel, q.1 ≤ end_b) := by
  constructor
  · intro hc
    simp only [asincScanTrace]
    rw [if_pos hc]
    rfl
  · intro q hq
    exact asincScanTrace_lower oracle mx end_b fuel cur cs q hq

/-- C7 counterexample: a segment ending at 105 entered at 100 with chunk
size 20 issues the single query from 100 to 120: the tentative upper
bound 120 is not min(100 + 20, 105), and the log query reaches 15 blocks
past the segment end. -/
theorem asincScan_query_past_end :
    asincScanTrace oracleEqualEnd 1000 105 100 20 2 = [(100, 120)] ∧
    (120 : Int) ≠ min (100 + 20) 105 := by
  decide

/-- Witness for asincScan_query_bounds on the concrete segment. -/
theorem asincScan_query_bounds_witness :
    (100 : Int) ≤ 105 ∧
    (asincScanTrace oracleEqualEnd 1000 105 100 20 2).head? = some (100, 120) ∧
    ((100 : Int), (120 : Int)).1 ≤ 105 :=
  ⟨by decide, (asincScan_query_bounds oracleEqualEnd 1000 105 100 20 1).1 (by decide),
    (asincScan_query_bounds oracleEqualEnd 1000 105 100 20 2).2 (100, 120) (by decide)⟩

theorem taskSegments_ne_nil (s e : Int) : taskSegments s e ≠ [] := by
  rw [taskSegments]
  split <;> simp

/-- C8 (amended): taskCreator partitions the requested range into
contiguous segments covering exactly the range, every one of width
MAX_CHUNK_SIZE except the final one, whose width is at most
MAX_CHUNK_SIZE + 1 (it absorbs the remainder instead of producing a
short trailing segment). -/
theorem taskSegments_partition (s e : Int) :
    isPartition s e (taskSegments s e) ∧
    (∃ a, (taskSegments s e).getLast? = some (a, e) ∧ e - a + 1 ≤ MAX_CHUNK_SIZE + 1) := by
  induction s, e using taskSegments.induct with
  | case1 s e h ih =>
    obtain ⟨ih1, a, iha, ihw⟩ := ih
    rw [taskSegments, dif_pos h]
    cases htail : taskSegments (s + MAX_CHUNK_SIZE) e with
    | nil => exact absurd htail (taskSegments_ne_nil _ _)
    | cons seg rest =>
      rw [htail] at ih1 iha
      constructor
      · show s = s ∧ (s + MAX_CHUNK_SIZE - 1) - s + 1 = MAX_CHUNK_SIZE ∧
          isPartition ((s + MAX_CHUNK_SIZE - 1) + 1) e (seg :: rest)
        refine ⟨rfl, by ring, ?_⟩
        have hrw : s + MAX_CHUNK_SIZE - 1 + 1 = s + MAX_CHUNK_SIZE := by ring
        rw [hrw]
        exact ih1
      · refine ⟨a, ?_, ihw⟩
        rw [List.getLast?_cons_cons]
        exact iha
  | case2 s e h =>
    rw [taskSegments, dif_neg h]
    simp only [MAX_CHUNK_SIZE] at h
    refine ⟨⟨rfl, rfl⟩, s, rfl, ?_⟩
    simp only [MAX_CHUNK_SIZE]
    omega

/-- C8 counterexample: the range 1 to 4001 with MAX_CHUNK_SIZE 1000 is
split into the four segments 1 to 1000, 1001 to 2000, 2001 to 3000 and
3001 to 4001 — three of width 1000 plus a final one of width 1001 — not
into four segments of 1000 plus one of 2 (five segments). -/
theorem taskSegments_not_four_plus_two :
    taskSegments 1 4001 = [(1, 1000), (1001, 2000), (2001, 3000), (3001, 4001)] ∧
    (taskSegments 1 4001).length ≠ 5 ∧
    (4001 : Int) - 3001 + 1 = 1001 := by
  have h1 : taskSegments 1 4001 = (1, 1000) :: taskSegments 1001 4001 := by
    rw [taskSegments, dif_pos (show (1 : Int) + MAX_CHUNK_SIZE < 4001 by
      norm_num [MAX_CHUNK_SIZE])]
    norm_num [MAX_CHUNK_SIZE]
  have h2 : taskSegments 1001 4001 = (1001, 2000) :: taskSegments 2001 4001 := by
    rw [taskSegments, dif_pos (show (1001 : Int) + MAX_CHUNK_SIZE < 4001 by
      norm_num [MAX_CHUNK_SIZE])]
    norm_num [MAX_CHUNK_SIZE]
  have h3 : taskSegments 2001 4001 = (2001, 3000) :: taskSegments 3001 4001 := by
    rw [taskSegments, dif_pos (show (2001 : Int) + MAX_CHUNK_SIZE < 4001 by
      norm_num [MAX_CHUNK_SIZE])]
    norm_num [MAX_CHUNK_SIZE]
  have h4 : taskSegments 3001 4001 = [(3001, 4001)] := by
    rw [taskSegments, dif_neg (show ¬((3001 : Int) + MAX_CHUNK_SIZE < 4001) by
      norm_num [MAX_CHUNK_SIZE])]
  rw [h1, h2, h3, h4]
  norm_num

theorem processLogs_header_isSome (header : Int → Option Int) :
    ∀ (evts : List Evt) (st : Blocks) (acc : List Ptr) (st2 : Blocks) (ptrs : List Ptr),
      processLogs header st acc evts = some (st2, ptrs) →
      ∀ evt ∈ evts, (get_block_timestamp header evt.blockNumber).isSome := by
  intro evts
  induction evts with
  | nil => intro st acc st2 ptrs _ evt hm; simp at hm
  | cons e rest ih =>
    intro st acc st2 ptrs hp evt hm
    simp only [processLogs] at hp
    by_cases hidx : e.logIndex.isSome
    · rw [if_pos hidx] at hp
      cases hpe : process_event (get_block_timestamp header e.blockNumber) e st with
      | none => rw [hpe] at hp; simp at hp
      | some r =>
        rw [hpe] at hp
        rcases List.mem_cons.mp hm with hq | hq
        · subst hq
          cases hbw : get_block_timestamp header evt.blockNumber with
          | none => rw [hbw] at hpe; simp [process_event] at hpe
          | some ts => simp
        · exact ih r.1 (acc ++ [r.2]) st2 ptrs hp evt hq
    · rw [if_neg hidx] at hp
      simp at hp

/-- C9 (amended): a BlockNotFound during timestamp lookup produces a
null timestamp rather than an exception; a null timestamp makes
process_event raise (the isoformat call on None), so a chunk whose
fetched events include one from the missing block aborts the cycle
instead of skipping the block; a chunk whose events all have headers
completes even when the header of its own end block is missing, carrying
a null end timestamp, and scanning continues past that height within the
same cycle; and every event a successful chunk processes has a present
header timestamp, which process_event stores in the persisted record. -/
theorem block_not_found_handling :
    (∀ (header : Int → Option Int) (h : Int),
      header h = none → get_block_timestamp header h = none) ∧
    (∀ (event : Evt) (st : Blocks), process_event none event st = none) ∧
    (∀ (header : Int → Option Int) (evts : List Evt) (st st2 : Blocks) (ptrs : List Ptr),
      processLogs header st [] evts = some (st2, ptrs) →
      ∀ evt ∈ evts, (get_block_timestamp header evt.blockNumber).isSome) ∧
    (∀ (ts : Int) (event : Evt) (st st2 : Blocks) (p : Ptr),
      process_event (some ts) event st = some (st2, p) →
      dictGet event.logIndex
        ((dictGet event.transactionHash ((dictGet event.blockNumber st2).getD [])).getD []) =
        some { addr_from := event.addr_from, addr_to := event.addr_to,
               value := event.value, timestamp := ts }) ∧
    (∀ (fetch : Int → Int → Option (List Evt)) (retries : Nat)
       (header : Int → Option Int) (st : Blocks) (s e e2 : Int)
       (evts : List Evt) (st2 : Blocks) (ptrs : List Ptr),
      _retry_web3_call fetch s e retries = some (e2, evts) →
      processLogs header st [] evts = some (st2, ptrs) →
      scan_chunk fetch retries header st s e =
        some (e2, get_block_timestamp header e2, st2, ptrs)) := by
  refine ⟨?_, ?_, ?_, ?_, ?_⟩
  · intro header h hh
    simp [get_block_timestamp, hh]
  · intro event st
    rfl
  · intro header evts st st2 ptrs hp
    exact processLogs_header_isSome header evts st [] st2 ptrs hp
  · intro ts event st st2 p hp
    simp only [process_event, Option.some.injEq, Prod.mk.injEq] at hp
    obtain ⟨h1, _⟩ := hp
    subst h1
    simp [dictGet_dictInsert]
  · intro fetch retries header st s e e2 evts st2 ptrs h1 h2
    simp [scan_chunk, h1, h2]

/-- C9 counterexample: a chunk over blocks 40 to 60 whose single fetched
event sits in block 50, whose header lookup fails with BlockNotFound:
the chunk aborts with an exception (process_event crashes on the null
timestamp) instead of returning null and continuing. -/
theorem scan_chunk_block_not_found_aborts :
    headerMiss 50 = none ∧ evt50.blockNumber = 50 ∧
    scan_chunk fetchOneEvt 4 headerMiss [] 40 60 = none :=
  ⟨rfl, rfl, rfl⟩

/-- Witness for block_not_found_handling at the missing block 50. -/
theorem block_not_found_handling_witness :
    headerMiss 50 = none ∧ get_block_timestamp headerMiss 50 = none :=
  ⟨by decide, block_not_found_handling.1 headerMiss 50 (by decide)⟩

theorem natCast_fdiv_two (w : Nat) : ((w : Int)).fdiv 2 = ((w / 2 : Nat) : Int) := by
  rw [Int.fdiv_eq_ediv _ (by norm_num)]
  push_cast
  rfl

theorem le_mul_ceilDiv (w W : Nat) (hW : 0 < W) : w + 1 ≤ W * ((w + W) / W) := by
  rw [Nat.add_div_right w hW, Nat.mul_add, Nat.mul_one]
  have h1 := Nat.div_add_mod w W
  have h2 := Nat.mod_lt w hW
  generalize hq : W * (w / W) = B at h1 ⊢
  generalize hm : w % W = m at h1 h2
  omega

theorem retry_succeeds_of_pow (W : Nat) (hW : 1 ≤ W)
    (f : Int → Int → Option (List Evt))
    (Hacc : ∀ a b : Int, (f a b).isSome ↔ b - a + 1 ≤ (W : Int)) :
    ∀ (k : Nat) (s e : Int), s ≤ e → (e - s).toNat + 1 ≤ W * 2 ^ k →
      (_retry_web3_call f s e (k + 1)).isSome := by
  intro k
  induction k with
  | zero =>
    intro s e hse hw
    rw [pow_zero, Nat.mul_one] at hw
    have hacc : (f s e).isSome := by
      rw [Hacc]
      omega
    obtain ⟨v, hv⟩ := Option.isSome_iff_exists.mp hacc
    simp [_retry_web3_call, hv]
  | succ n ih =>
    intro s e hse hw
    by_cases hacc : (f s e).isSome
    · obtain ⟨v, hv⟩ := Option.isSome_iff_exists.mp hacc
      simp [_retry_web3_call, hv]
    · have hfe : f s e = none := Option.not_isSome_iff_eq_none.mp hacc
      have hstep : _retry_web3_call f s e (n + 1 + 1) =
          _retry_web3_call f s (s + (e - s).fdiv 2) (n + 1) := by
        simp [_retry_web3_call, hfe]
      rw [hstep]
      have hw0 : (0 : Int) ≤ e - s := by omega
      have hrep : e - s = (((e - s).toNat : Nat) : Int) := (Int.toNat_of_nonneg hw0).symm
      have hfd : (e - s).fdiv 2 = (((e - s).toNat / 2 : Nat) : Int) := by
        rw [hrep]
        exact natCast_fdiv_two _
      rw [pow_succ, ← Nat.mul_assoc] at hw
      apply ih
      · rw [hfd]
        omega
      · have hsimp : (s + (((e - s).toNat / 2 : Nat) : Int)) - s = (((e - s).toNat / 2 : Nat) : Int) := by
          ring
        rw [hfd, hsimp]
        generalize hM : W * 2 ^ n = M at hw ⊢
        omega

/-- C2: against an oracle ChainClient that accepts exactly the queries
whose inclusive range spans at most W blocks and fails all larger ones,
the retry and shrink fetcher on the range from s to e returns a
successful pair within ceil(log2((e - s + 1) / W)) + 1 attempts: given a
budget of Nat.clog 2 of the ceiling of (e - s + 1) over W, plus one, the
loop succeeds. -/
theorem shrink_convergence (W : Nat) (hW : 1 ≤ W)
    (f : Int → Int → Option (List Evt))
    (Hacc : ∀ a b : Int, (f a b).isSome ↔ b - a + 1 ≤ (W : Int))
    (s e : Int) (hse : s ≤ e) :
    (_retry_web3_call f s e (Nat.clog 2 (((e - s).toNat + W) / W) + 1)).isSome := by
  apply retry_succeeds_of_pow W hW f Hacc _ s e hse
  have h1 : ((e - s).toNat + W) / W ≤ 2 ^ Nat.clog 2 (((e - s).toNat + W) / W) :=
    Nat.le_pow_clog (by norm_num) _
  have h2 : (e - s).toNat + 1 ≤ W * (((e - s).toNat + W) / W) :=
    le_mul_ceilDiv _ W (by omega)
  calc (e - s).toNat + 1 ≤ W * (((e - s).toNat + W) / W) := h2
    _ ≤ W * 2 ^ Nat.clog 2 (((e - s).toNat + W) / W) :=
        Nat.mul_le_mul (Nat.le_refl W) h1

/-- Witness for shrink_convergence with W 100 on the range 1000 to 2000:
the bound is clog2(ceil(1001 / 100)) + 1 = 5 attempts. -/
theorem shrink_convergence_witness :
    (1 : Nat) ≤ 100 ∧ (1000 : Int) ≤ 2000 ∧
    (_retry_web3_call oracleW100 1000 2000
      (Nat.clog 2 ((((2000 : Int) - 1000).toNat + 100) / 100) + 1)).isSome :=
  ⟨by decide, by decide,
    shrink_convergence 100 (by decide) oracleW100
      (fun a b => by
        by_cases h : b - a + 1 ≤ (100 : Int) <;> simp [oracleW100, h])
      1000 2000 (by decide)⟩
